import Mathlib

/-!
Shallow embedding of the Cortex core (Go): data model (`pkg/types`),
SQLite-backed repository (`internal/db/sqlite.go`) and the engine
(`internal/core`).  Machine time is modelled as `Nat`, Go `float64`
scores as `ℚ`, embedding vectors as `List ℚ` (and, for the byte-level
serialization helpers, a `float32` is modelled by its bit pattern, a
`Nat` below `2^32`).  Storage-level I/O failures of the primary store
are outside the model; the fallible external collaborators (embedding
provider, vector index, keyword index) are passed in as `Except`-valued
oracles, mirroring the fields of `core.Engine`.
-/

namespace Cortex

/-- Embeds `types.MemoryType` (Go string enum; the empty string is represented
by `Option MemoryType = none` at option boundaries). -/
inductive MemoryType where
  | general | error | pattern | decision | context | procedure
deriving DecidableEq, Repr

/-- Embeds `types.TrustLevel` (Go string enum). -/
inductive TrustLevel where
  | proposed | validated | proven | disputed | obsolete
deriving DecidableEq, Repr

/-- Embeds `types.RelationType`. -/
inductive RelationType where
  | causes | solves | replaces | requires | relatedTo | partOf | contradicts
deriving DecidableEq, Repr

/-- Embeds `types.Metadata`. -/
structure Metadata where
  source : String
  project : String
  author : String
  extraData : List (String × String)
deriving DecidableEq, Repr

/-- Embeds `types.Memory`; timestamps are `Nat` instants. -/
structure Memory where
  id : String
  content : String
  type : MemoryType
  topicKey : String
  tags : List String
  trust : TrustLevel
  metadata : Metadata
  createdAt : Nat
  updatedAt : Nat
  accessCnt : Nat
deriving DecidableEq, Repr

/-- Embeds `types.Relation`. -/
structure Relation where
  id : String
  fromId : String
  toId : String
  type : RelationType
  note : String
  createdAt : Nat
deriving DecidableEq, Repr

/-- Embeds `types.SearchResult` (`Score` is Go `float64`, modelled as `ℚ`). -/
structure SearchResult where
  memory : Memory
  score : ℚ
  matchType : String
deriving DecidableEq, Repr

/-- Embeds `types.StoreOptions`.  A `none` models the Go zero value that
`Engine.Store` treats as "not supplied" (`nil` slice for `Tags`, empty
string for `Type`/`Trust`). -/
structure StoreOptions where
  topicKey : String
  tags : Option (List String)
  type : Option MemoryType
  trust : Option TrustLevel
  project : String
  source : String
  extraData : List (String × String)
deriving DecidableEq, Repr

/-- Embeds `types.RecallOptions`. -/
structure RecallOptions where
  limit : Nat
  minScore : ℚ
  types : List MemoryType
  tags : List String
  trustLevels : List TrustLevel
  project : String
  topicKey : String
deriving DecidableEq, Repr

/-- One row of a `VectorSearch` result (`memory_id`, L2 `distance`). -/
structure VecHit where
  memoryId : String
  distance : ℚ
deriving DecidableEq, Repr

/-- One row of the `embeddings` cache table. -/
structure EmbRow where
  memoryId : String
  vector : List ℚ
  model : String
  createdAt : Nat
deriving DecidableEq, Repr

/-- The durable state behind `db.DB`: the `memories` and `relations`
tables, the `embeddings` cache, and the `vec_memories` vector index. -/
structure DBState where
  memories : List Memory
  relations : List Relation
  embRows : List EmbRow
  vecIndex : List (String × List ℚ)
deriving DecidableEq, Repr

/-- Embeds `DB.GetMemory`: lookup by primary key `id`. -/
def getMemory (st : DBState) (id : String) : Option Memory :=
  st.memories.find? (fun m => m.id = id)

/-- The `ORDER BY updated_at DESC LIMIT 1` projection: the most
recently updated element of the list (SQLite leaves ties unordered; the
model keeps the earlier row on a tie). -/
def bestByUpdated (l : List Memory) : Option Memory :=
  l.foldl
    (fun acc m =>
      match acc with
      | none => some m
      | some b => if b.updatedAt < m.updatedAt then some m else some b)
    none

/-- Embeds `DB.GetMemoryByTopicKey`: most recently updated row whose
`topic_key` equals the key. -/
def getMemoryByTopicKey (st : DBState) (key : String) : Option Memory :=
  bestByUpdated (st.memories.filter (fun m => m.topicKey = key))

/-- Embeds `DB.SaveMemory`: `INSERT ... ON CONFLICT(id) DO UPDATE` upsert; on
conflict every column except `id` and `created_at` is overwritten. -/
def saveMemory (st : DBState) (m : Memory) : DBState :=
  if st.memories.any (fun old => old.id = m.id) then
    { st with
      memories := st.memories.map (fun old =>
        if old.id = m.id then
          { old with
            content := m.content, type := m.type, topicKey := m.topicKey,
            tags := m.tags, trust := m.trust, metadata := m.metadata,
            updatedAt := m.updatedAt, accessCnt := m.accessCnt }
        else old) }
  else
    { st with memories := st.memories ++ [m] }

/-- Embeds `DB.DeleteMemory`: the code runs only
`DELETE FROM memories WHERE id = ?`.  The schema declares
`ON DELETE CASCADE` foreign keys on `relations` and `embeddings`, but
`db.New` opens the connection with
`path?_journal_mode=WAL&_busy_timeout=5000` and never enables the
`foreign_keys` pragma, which SQLite keeps off by default, so at runtime
no cascade fires: relations, embedding rows and vector-index entries
survive the delete. -/
def deleteMemory (st : DBState) (id : String) : DBState :=
  { st with memories := st.memories.filter (fun m => ¬ m.id = id) }

/-- Embeds `DB.IncrementAccessCount`. -/
def incrementAccessCount (st : DBState) (id : String) : DBState :=
  { st with
    memories := st.memories.map (fun m =>
      if m.id = id then { m with accessCnt := m.accessCnt + 1 } else m) }

/-- Embeds `DB.UpdateTrust`. -/
def updateTrust (st : DBState) (id : String) (trust : TrustLevel) (now : Nat) :
    DBState :=
  { st with
    memories := st.memories.map (fun m =>
      if m.id = id then { m with trust := trust, updatedAt := now } else m) }

/-- The `WHERE` clause of `DB.ListMemories`: conjunction of the
optional `type IN`, `trust IN`, project and `topic_key LIKE 'p%'`
filters (a filter on an absent option imposes nothing). -/
def listFilter (opts : RecallOptions) (m : Memory) : Bool :=
  (opts.types.isEmpty || opts.types.contains m.type) &&
  (opts.trustLevels.isEmpty || opts.trustLevels.contains m.trust) &&
  (opts.project = "" || m.metadata.project = opts.project) &&
  (opts.topicKey = "" || opts.topicKey.isPrefixOf m.topicKey)

/-- Stable insertion of a memory into a list ordered by `updated_at`
descending. -/
def insertByUpdatedDesc (m : Memory) : List Memory → List Memory
  | [] => [m]
  | x :: xs =>
      if x.updatedAt < m.updatedAt then m :: x :: xs
      else x :: insertByUpdatedDesc m xs

/-- Embeds `ORDER BY updated_at DESC` as a stable insertion sort. -/
def sortByUpdatedDesc : List Memory → List Memory
  | [] => []
  | x :: xs => insertByUpdatedDesc x (sortByUpdatedDesc xs)

/-- Embeds `DB.ListMemories`: filter, order by `updated_at` descending, and
apply `LIMIT` only when `opts.Limit > 0`. -/
def listMemories (st : DBState) (opts : RecallOptions) : List Memory :=
  let sorted := sortByUpdatedDesc (st.memories.filter (listFilter opts))
  if 0 < opts.limit then sorted.take opts.limit else sorted

/-- Embeds `DB.SaveEmbedding`: upsert of the `embeddings` cache row, then
delete-then-insert into the `vec_memories` index (the index backend has
no native upsert). -/
def saveEmbedding (st : DBState) (memoryId : String) (vec : List ℚ)
    (model : String) (now : Nat) : DBState :=
  let rows :=
    if st.embRows.any (fun r => r.memoryId = memoryId) then
      st.embRows.map (fun r =>
        if r.memoryId = memoryId then
          { r with vector := vec, model := model, createdAt := now }
        else r)
    else
      st.embRows ++ [⟨memoryId, vec, model, now⟩]
  { st with
    embRows := rows
    vecIndex :=
      st.vecIndex.filter (fun e => ¬ e.1 = memoryId) ++ [(memoryId, vec)] }

/-- Squared L2 distance, the computable stand-in for the external
index's L2 metric (order-equivalent to it, and equal to it at 0, which
is all the concrete scenarios use). -/
def sqDist : List ℚ → List ℚ → ℚ
  | [], [] => 0
  | [], y :: ys => y * y + sqDist [] ys
  | x :: xs, [] => x * x + sqDist xs []
  | x :: xs, y :: ys => (x - y) * (x - y) + sqDist xs ys

/-- Stable insertion into a hit list ordered by ascending distance. -/
def insertByDistance (h : VecHit) : List VecHit → List VecHit
  | [] => [h]
  | x :: xs =>
      if h.distance < x.distance then h :: x :: xs
      else x :: insertByDistance h xs

/-- Ascending-distance stable sort of vector hits. -/
def sortByDistance : List VecHit → List VecHit
  | [] => []
  | x :: xs => insertByDistance x (sortByDistance xs)

/-- Modelled from the spec: the three-argument
`DB.VectorSearch(queryEmb, limit, trustLevels)` that `Engine.Recall`
calls is not among the source files (the file present carries only a
stale two-argument variant with no trust filter).  Per the spec it
returns the `k` nearest index entries by L2 distance "restricted to the
requested trust levels"; the metric itself belongs to the external
k-nearest-neighbor index and is passed in as a parameter. -/
def vectorSearch (st : DBState) (metric : List ℚ → List ℚ → ℚ)
    (queryEmb : List ℚ) (k : Nat) (trustLevels : List TrustLevel) :
    List VecHit :=
  let cands := st.vecIndex.filter (fun e =>
    match getMemory st e.1 with
    | some m => trustLevels.contains m.trust
    | none => false)
  (sortByDistance (cands.map (fun e => ⟨e.1, metric queryEmb e.2⟩))).take k

/-- Outcome of the best-effort secondary embedding step of
`Engine.Store`: the provider call can fail, the `embeddings`-row write
can fail (no state change), or the `vec_memories` insert can fail after
the row write and the index delete already happened. -/
inductive EmbedOutcome where
  | providerFail
  | rowFail (emb : List ℚ)
  | indexFail (emb : List ℚ)
  | ok (emb : List ℚ)
deriving DecidableEq, Repr

/-- State effect of the secondary embedding step of `Engine.Store`
under each outcome; a failure is logged to stderr and swallowed, never
surfaced to the caller. -/
def applyEmbedOutcome (st : DBState) (memoryId : String) (model : String)
    (now : Nat) : EmbedOutcome → DBState
  | .providerFail => st
  | .rowFail _ => st
  | .indexFail emb =>
      let st1 := saveEmbedding st memoryId emb model now
      { st1 with vecIndex := st1.vecIndex.filter (fun e => ¬ e.1 = memoryId) }
  | .ok emb => saveEmbedding st memoryId emb model now

/-- The found-branch of `Engine.Store` (topic-key evolution): always
update `content` and `updatedAt`; update tags/type/trust only where the
option was explicitly supplied; keep `id` and `createdAt`. -/
def evolveMemory (ex : Memory) (content : String) (opts : StoreOptions)
    (now : Nat) : Memory :=
  { ex with
    content := content
    updatedAt := now
    tags := opts.tags.getD ex.tags
    type := opts.type.getD ex.type
    trust := opts.trust.getD ex.trust }

/-- The create-branch of `Engine.Store`: a fresh record with defaults
`general`/`proposed` where type/trust were not supplied,
`createdAt = updatedAt = now` and `accessCount = 0`. -/
def freshMemory (content : String) (opts : StoreOptions) (now : Nat)
    (freshId : String) : Memory :=
  { id := freshId
    content := content
    type := opts.type.getD .general
    topicKey := opts.topicKey
    tags := opts.tags.getD []
    trust := opts.trust.getD .proposed
    metadata :=
      { source := opts.source, project := opts.project, author := ""
        extraData := opts.extraData }
    createdAt := now
    updatedAt := now
    accessCnt := 0 }

/-- Embeds `Engine.Store`: look up by non-empty topic key; either evolve the
found record in place or create a fresh one; save it synchronously;
then run the best-effort embedding step.  `now` models `timeNow()`,
`freshId` the `generateID()` draw. -/
def Engine.Store (st : DBState) (content : String) (opts : StoreOptions)
    (now : Nat) (freshId : String) (model : String) (embNow : Nat)
    (outcome : EmbedOutcome) : Memory × DBState :=
  let existing :=
    if opts.topicKey = "" then none else getMemoryByTopicKey st opts.topicKey
  let memory :=
    match existing with
    | some ex => evolveMemory ex content opts now
    | none => freshMemory content opts now freshId
  let st1 := saveMemory st memory
  (memory, applyEmbedOutcome st1 memory.id model embNow outcome)

/-- The fallible external collaborators `Engine.Recall` talks to, in
the shape of the `e.embedder` / `e.db` calls it makes. -/
structure RecallBackend where
  embed : String → Except Unit (List ℚ)
  vecSearch : List ℚ → Nat → List TrustLevel → Except Unit (List VecHit)
  ftsSearch : String → Nat → Except Unit (List String)

/-- Effective limit: `opts.Limit == 0` defaults to 5. -/
def effLimit (opts : RecallOptions) : Nat :=
  if opts.limit = 0 then 5 else opts.limit

/-- Effective minimum score: `opts.MinScore == 0` defaults to 0.3. -/
def effMinScore (opts : RecallOptions) : ℚ :=
  if opts.minScore = 0 then 3 / 10 else opts.minScore

/-- Effective trust levels: empty defaults to validated+proven. -/
def effLevels (opts : RecallOptions) : List TrustLevel :=
  if opts.trustLevels.isEmpty then [.validated, .proven] else opts.trustLevels

/-- Hybrid score of one vector hit: `semanticScore = 1 - d/2`, floored
at 0; times 0.7; plus a flat 0.15 keyword boost. -/
def hybridScore (d : ℚ) (kw : Bool) : ℚ :=
  (if 1 - d / 2 < 0 then 0 else 1 - d / 2) * (7 / 10) +
    (if kw then 3 / 20 else 0)

/-- The fusion loop of `Engine.Recall`: walk the vector hits in order,
skip ids already `seen`, mark seen, fetch the record (skip when the
fetch fails), score, and keep those reaching `minScore`. -/
def recallLoop (st : DBState) (ftsIDs : List String) (minScore : ℚ) :
    List VecHit → List String → List SearchResult
  | [], _ => []
  | vr :: rest, seen =>
      if seen.contains vr.memoryId then
        recallLoop st ftsIDs minScore rest seen
      else
        let seen' := vr.memoryId :: seen
        match getMemory st vr.memoryId with
        | none => recallLoop st ftsIDs minScore rest seen'
        | some memory =>
            let score := hybridScore vr.distance (ftsIDs.contains vr.memoryId)
            if score < minScore then
              recallLoop st ftsIDs minScore rest seen'
            else
              ⟨memory, score, "hybrid"⟩ :: recallLoop st ftsIDs minScore rest seen'

/-- Embeds `Engine.Recall`: apply defaults; embed the query (failure aborts);
vector-search `2×limit` under the effective trust levels (failure
aborts); keyword-search `2×limit` with the error discarded (a failure
yields the empty id list); fuse with `recallLoop`; truncate to
`limit`.  The per-hit access-count increments touch only `accessCnt`
of rows already fetched and are not part of the returned value. -/
def Engine.Recall (st : DBState) (be : RecallBackend) (query : String)
    (opts : RecallOptions) : Except Unit (List SearchResult) :=
  match be.embed query with
  | .error e => .error e
  | .ok queryEmb =>
      match be.vecSearch queryEmb (effLimit opts * 2) (effLevels opts) with
      | .error e => .error e
      | .ok vecResults =>
          let ftsIDs := (be.ftsSearch query (effLimit opts * 2)).toOption.getD []
          .ok ((recallLoop st ftsIDs (effMinScore opts) vecResults []).take
            (effLimit opts))

/-- First-occurrence de-duplication of a hit list by memory id,
relative to an initial `seen` set. -/
def dedupFirst : List VecHit → List String → List VecHit
  | [], _ => []
  | vr :: rest, seen =>
      if seen.contains vr.memoryId then dedupFirst rest seen
      else vr :: dedupFirst rest (vr.memoryId :: seen)

/-- Scoring of a single de-duplicated hit: `none` when the record is
gone or the hybrid score misses the threshold. -/
def scoreHit (st : DBState) (ftsIDs : List String) (minScore : ℚ)
    (vr : VecHit) : Option SearchResult :=
  match getMemory st vr.memoryId with
  | none => none
  | some memory =>
      let score := hybridScore vr.distance (ftsIDs.contains vr.memoryId)
      if score < minScore then none else some ⟨memory, score, "hybrid"⟩

/-- Embeds `float32ToBytes`: each `float32` (its 32 bit pattern) becomes four
little-endian bytes, each a truncating `byte(...)` conversion. -/
def float32ToBytes (floats : List Nat) : List Nat :=
  (floats.map (fun bits =>
    [bits % 256, bits / 2 ^ 8 % 256, bits / 2 ^ 16 % 256,
      bits / 2 ^ 24 % 256])).flatten

/-- Embeds `bytesToFloat32`: rebuild one 32-bit pattern from every full group
of four little-endian bytes (a trailing partial group is dropped, as
the Go `len/4` loop does). -/
def bytesToFloat32 : List Nat → List Nat
  | b0 :: b1 :: b2 :: b3 :: rest =>
      (b0 + b1 * 2 ^ 8 + b2 * 2 ^ 16 + b3 * 2 ^ 24) :: bytesToFloat32 rest
  | _ => []

/-- The `embeddings` blob column at byte level: `DB.SaveEmbedding`
serializes the vector with `float32ToBytes` into the upserted row. -/
def saveEmbeddingBlob (blobs : List (String × List Nat)) (memoryId : String)
    (vecBits : List Nat) : List (String × List Nat) :=
  if blobs.any (fun e => e.1 = memoryId) then
    blobs.map (fun e =>
      if e.1 = memoryId then (e.1, float32ToBytes vecBits) else e)
  else
    blobs ++ [(memoryId, float32ToBytes vecBits)]

/-- Embeds `DB.GetEmbedding` at byte level: read the blob back through
`bytesToFloat32`. -/
def getEmbeddingBlob (blobs : List (String × List Nat)) (memoryId : String) :
    Option (List Nat) :=
  (blobs.find? (fun e => e.1 = memoryId)).map (fun e => bytesToFloat32 e.2)

/-! ### Helper lemmas -/

theorem find?_append_of_all_false {α : Type} {p : α → Bool} :
    ∀ {l₁ l₂ : List α}, (∀ x ∈ l₁, p x = false) →
    (l₁ ++ l₂).find? p = l₂.find? p := by
  intro l₁
  induction l₁ with
  | nil => intro l₂ _; rfl
  | cons a l ih =>
      intro l₂ h
      have ha : p a = false := h a (by simp)
      simp only [List.cons_append, List.find?]
      rw [ha]
      exact ih fun x hx => h x (by simp [hx])

theorem recompose_four_bytes (b : Nat) (h : b < 2 ^ 32) :
    b % 256 + b / 2 ^ 8 % 256 * 2 ^ 8 + b / 2 ^ 16 % 256 * 2 ^ 16 +
      b / 2 ^ 24 % 256 * 2 ^ 24 = b := by
  have h8 : (2 : Nat) ^ 8 = 256 := by norm_num
  have h16 : (2 : Nat) ^ 16 = 65536 := by norm_num
  have h24 : (2 : Nat) ^ 24 = 16777216 := by norm_num
  have h32 : (2 : Nat) ^ 32 = 4294967296 := by norm_num
  rw [h8, h16, h24] at *
  rw [h32] at h
  omega

theorem bytes_roundtrip :
    ∀ v : List Nat, (∀ b ∈ v, b < 2 ^ 32) →
      bytesToFloat32 (float32ToBytes v) = v := by
  intro v
  induction v with
  | nil => intro _; rfl
  | cons b rest ih =>
      intro h
      have hb : b < 2 ^ 32 := h b (by simp)
      have htail := ih fun x hx => h x (by simp [hx])
      simp only [float32ToBytes, List.map_cons, List.flatten_cons,
        List.cons_append, List.nil_append] at htail ⊢
      rw [bytesToFloat32]
      rw [htail]
      rw [recompose_four_bytes b hb]

theorem find?_upsert_map {bytes : List Nat} {memoryId : String} :
    ∀ blobs : List (String × List Nat),
      blobs.any (fun e => e.1 = memoryId) = true →
      (blobs.map (fun e =>
        if e.1 = memoryId then (e.1, bytes) else e)).find?
          (fun e => e.1 = memoryId) = some (memoryId, bytes) := by
  intro blobs
  induction blobs with
  | nil => intro h; simp at h
  | cons e bs ih =>
      intro h
      by_cases he : e.1 = memoryId
      · simp only [List.map_cons, if_pos he, List.find?]
        have : (decide ((e.1, bytes).1 = memoryId)) = true := by
          simp [he]
        rw [this]
        simp [he]
      · simp only [List.map_cons, if_neg he, List.find?]
        have hd : (decide (e.1 = memoryId)) = false := by simp [he]
        rw [hd]
        apply ih
        simp only [List.any_cons] at h
        rcases Bool.or_eq_true_iff.mp h with h1 | h1
        · exact absurd (by simpa using h1) he
        · exact h1

/-! ### C9 -/

/-- C9: round-trip — for every float32 vector (each element its 32-bit
pattern), `saveEmbedding`'s little-endian serialization followed by
`getEmbedding`'s deserialization is the identity: reading back a saved
embedding yields a bit-identical vector. -/
theorem embedding_blob_roundtrip (blobs : List (String × List Nat))
    (memoryId : String) (v : List Nat) (h : ∀ b ∈ v, b < 2 ^ 32) :
    getEmbeddingBlob (saveEmbeddingBlob blobs memoryId v) memoryId = some v := by
  unfold getEmbeddingBlob saveEmbeddingBlob
  by_cases hany : blobs.any (fun e => e.1 = memoryId) = true
  · rw [if_pos hany, find?_upsert_map blobs hany]
    simp [bytes_roundtrip v h]
  · rw [if_neg hany]
    have hall : ∀ x ∈ blobs, (fun e => decide (e.1 = memoryId)) x = false := by
      intro x hx
      by_contra hc
      exact hany (List.any_eq_true.mpr ⟨x, hx, by simpa using hc⟩)
    rw [find?_append_of_all_false hall]
    simp [bytes_roundtrip v h]

/-- Witness for C9 at a concrete vector (0.0, 1.0e-45 denormal bits,
-1.0 bits, an all-ones NaN pattern). -/
theorem embedding_blob_roundtrip_witness :
    (∀ b ∈ [(0 : Nat), 1, 3212836864, 4294967295], b < 2 ^ 32) ∧
      getEmbeddingBlob
        (saveEmbeddingBlob [] "m" [0, 1, 3212836864, 4294967295]) "m" =
        some [0, 1, 3212836864, 4294967295] :=
  ⟨by decide,
    embedding_blob_roundtrip [] "m" [0, 1, 3212836864, 4294967295] (by decide)⟩

/-! ### C10 -/

/-- C10: the `Tags` field of `RecallOptions` is dead — two `Recall`
calls whose options differ only in `Tags` return identical results, and
likewise two `List` calls: no tag filtering is applied anywhere. -/
theorem tags_have_no_effect (st : DBState) (be : RecallBackend)
    (query : String) (opts : RecallOptions) (tags' : List String) :
    Engine.Recall st be query { opts with tags := tags' } =
        Engine.Recall st be query opts ∧
      listMemories st { opts with tags := tags' } = listMemories st opts := by
  cases opts
  exact ⟨rfl, rfl⟩

/-! ### Recall structure lemmas -/

theorem recallLoop_eq_filterMap (st : DBState) (ftsIDs : List String)
    (minScore : ℚ) :
    ∀ (l : List VecHit) (seen : List String),
      recallLoop st ftsIDs minScore l seen =
        (dedupFirst l seen).filterMap (scoreHit st ftsIDs minScore) := by
  intro l
  induction l with
  | nil => intro seen; rfl
  | cons vr rest ih =>
      intro seen
      by_cases hs : seen.contains vr.memoryId = true
      · simp only [recallLoop, dedupFirst, if_pos hs]
        exact ih seen
      · simp only [recallLoop, dedupFirst, if_neg hs, List.filterMap_cons]
        cases hget : getMemory st vr.memoryId with
        | none =>
            simp only [hget, scoreHit]
            exact ih (vr.memoryId :: seen)
        | some memory =>
            simp only [hget, scoreHit]
            by_cases hsc :
                hybridScore vr.distance (ftsIDs.contains vr.memoryId) <
                  minScore
            · simp only [if_pos hsc]
              exact ih (vr.memoryId :: seen)
            · simp only [if_neg hsc]
              rw [ih (vr.memoryId :: seen)]

theorem mem_dedupFirst {vr : VecHit} :
    ∀ {l : List VecHit} {seen : List String}, vr ∈ dedupFirst l seen →
      vr ∈ l := by
  intro l
  induction l with
  | nil => intro seen h; simp [dedupFirst] at h
  | cons x rest ih =>
      intro seen h
      by_cases hs : seen.contains x.memoryId = true
      · rw [dedupFirst, if_pos hs] at h
        exact List.mem_cons_of_mem x (ih h)
      · rw [dedupFirst, if_neg hs] at h
        rcases List.mem_cons.mp h with h1 | h1
        · exact h1 ▸ List.mem_cons_self x rest
        · exact List.mem_cons_of_mem x (ih h1)

theorem getMemory_id {st : DBState} {id : String} {m : Memory}
    (h : getMemory st id = some m) : m.id = id := by
  have := List.find?_some h
  simpa using this

theorem scoreHit_spec {st : DBState} {ftsIDs : List String} {minScore : ℚ}
    {vr : VecHit} {r : SearchResult}
    (h : scoreHit st ftsIDs minScore vr = some r) :
    getMemory st vr.memoryId = some r.memory ∧
      r.score = hybridScore vr.distance (ftsIDs.contains vr.memoryId) ∧
      ¬ r.score < minScore ∧ r.memory.id = vr.memoryId := by
  unfold scoreHit at h
  cases hget : getMemory st vr.memoryId with
  | none => rw [hget] at h; exact absurd h (by simp)
  | some memory =>
      rw [hget] at h
      dsimp only at h
      by_cases hsc :
          hybridScore vr.distance (ftsIDs.contains vr.memoryId) < minScore
      · rw [if_pos hsc] at h
        exact absurd h (by simp)
      · rw [if_neg hsc] at h
        injection h with h2
        subst h2
        exact ⟨rfl, rfl, hsc, getMemory_id hget⟩

/-- The `Engine.Recall` success value, fully characterized. -/
theorem recall_ok_iff (st : DBState) (be : RecallBackend) (query : String)
    (opts : RecallOptions) (queryEmb : List ℚ) (vhits : List VecHit)
    (hemb : be.embed query = .ok queryEmb)
    (hvec : be.vecSearch queryEmb (effLimit opts * 2) (effLevels opts) =
      .ok vhits) :
    Engine.Recall st be query opts =
      .ok (((dedupFirst vhits []).filterMap
        (scoreHit st ((be.ftsSearch query (effLimit opts * 2)).toOption.getD [])
          (effMinScore opts))).take (effLimit opts)) := by
  unfold Engine.Recall
  rw [hemb]
  dsimp only
  rw [hvec]
  dsimp only
  rw [recallLoop_eq_filterMap]

theorem recall_mem_elim {st : DBState} {be : RecallBackend} {query : String}
    {opts : RecallOptions} {res : List SearchResult}
    (h : Engine.Recall st be query opts = .ok res) {r : SearchResult}
    (hr : r ∈ res) :
    ∃ queryEmb vhits, be.embed query = .ok queryEmb ∧
      be.vecSearch queryEmb (effLimit opts * 2) (effLevels opts) = .ok vhits ∧
      ∃ vr ∈ vhits,
        scoreHit st ((be.ftsSearch query (effLimit opts * 2)).toOption.getD [])
          (effMinScore opts) vr = some r := by
  cases hemb : be.embed query with
  | error e =>
      unfold Engine.Recall at h
      rw [hemb] at h
      exact absurd h (by simp)
  | ok queryEmb =>
      cases hvec : be.vecSearch queryEmb (effLimit opts * 2)
          (effLevels opts) with
      | error e =>
          unfold Engine.Recall at h
          rw [hemb] at h
          dsimp only at h
          rw [hvec] at h
          exact absurd h (by simp)
      | ok vhits =>
          have hchar := recall_ok_iff st be query opts queryEmb vhits hemb hvec
          have hres := Except.ok.inj (hchar.symm.trans h)
          subst hres
          have hr' := List.take_subset _ _ hr
          rcases List.mem_filterMap.mp hr' with ⟨vr, hvr, hsome⟩
          exact ⟨queryEmb, vhits, rfl, hvec, vr, mem_dedupFirst hvr, hsome⟩

/-! ### Concrete fixtures for witnesses and scenarios -/

/-- All-zero `RecallOptions`: every field at its Go zero value, so all
defaults apply. -/
def defaultRecallOptions : RecallOptions := ⟨0, 0, [], [], [], "", ""⟩

/-- The empty store. -/
def emptyState : DBState := ⟨[], [], [], []⟩

def demoMemA : Memory :=
  ⟨"a", "alpha content", .general, "", [], .validated, ⟨"", "", "", []⟩, 0, 0, 0⟩

def demoMemB : Memory :=
  ⟨"b", "beta content", .general, "", [], .proven, ⟨"", "", "", []⟩, 0, 0, 0⟩

def demoState : DBState :=
  ⟨[demoMemA, demoMemB], [], [], [("a", [1]), ("b", [0])]⟩

/-- A vector-hit list with a duplicate id, a far hit and a dangling id. -/
def demoHits : List VecHit := [⟨"a", 0⟩, ⟨"a", 0⟩, ⟨"b", 3⟩, ⟨"missing", 0⟩]

def demoBackend : RecallBackend :=
  ⟨fun _ => .ok [1], fun _ _ _ => .ok demoHits, fun _ _ => .ok ["a"]⟩

theorem demo_score_a : scoreHit demoState ["a"] (3 / 10) ⟨"a", 0⟩ =
    some ⟨demoMemA, 17 / 20, "hybrid"⟩ := by
  have ga : getMemory demoState "a" = some demoMemA := by decide
  have hc : (["a"] : List String).contains "a" = true := by decide
  unfold scoreHit
  rw [ga]
  dsimp only
  rw [hc]
  have hs : hybridScore 0 true = 17 / 20 := by norm_num [hybridScore]
  rw [hs]
  have hn : ¬ (17 / 20 : ℚ) < 3 / 10 := by norm_num
  rw [if_neg hn]

theorem demo_score_b : scoreHit demoState ["a"] (3 / 10) ⟨"b", 3⟩ = none := by
  have gb : getMemory demoState "b" = some demoMemB := by decide
  have hc : (["a"] : List String).contains "b" = false := by decide
  unfold scoreHit
  rw [gb]
  dsimp only
  rw [hc]
  have hs : hybridScore 3 false = 0 := by norm_num [hybridScore]
  rw [hs]
  have hn : (0 : ℚ) < 3 / 10 := by norm_num
  rw [if_pos hn]

theorem demo_score_missing :
    scoreHit demoState ["a"] (3 / 10) ⟨"missing", 0⟩ = none := by
  have gm : getMemory demoState "missing" = none := by decide
  unfold scoreHit
  rw [gm]

/-- Full evaluation of `Engine.Recall` on the demo store: the duplicate
hit is dropped, the far hit misses the threshold, the dangling id is
skipped, and the near hit gets the keyword boost. -/
theorem demo_recall_eval :
    Engine.Recall demoState demoBackend "q" defaultRecallOptions =
      .ok [⟨demoMemA, 17 / 20, "hybrid"⟩] := by
  rw [recall_ok_iff demoState demoBackend "q" defaultRecallOptions [1]
    demoHits rfl rfl]
  have hd : dedupFirst demoHits [] =
      [⟨"a", 0⟩, ⟨"b", 3⟩, ⟨"missing", 0⟩] := by decide
  have hfts : (demoBackend.ftsSearch "q"
      (effLimit defaultRecallOptions * 2)).toOption.getD [] = ["a"] := by
    decide
  have hms : effMinScore defaultRecallOptions = 3 / 10 := by
    norm_num [effMinScore, defaultRecallOptions]
  rw [hd, hfts, hms, List.filterMap_cons, List.filterMap_cons,
    List.filterMap_cons, demo_score_a, demo_score_b, demo_score_missing]
  rfl

/-! ### C5 -/

/-- C5: the sequence `Recall` returns is exactly the order-preserving
subsequence of the first-occurrence-de-duplicated vector hits (in the
ascending-distance order the vector search handed over) whose hybrid
score passes the threshold, truncated to `limit`; in particular it is a
sublist of that scored sequence and is never re-sorted by final
score. -/
theorem recall_order_characterization (st : DBState) (be : RecallBackend)
    (query : String) (opts : RecallOptions) (queryEmb : List ℚ)
    (vhits : List VecHit)
    (hemb : be.embed query = .ok queryEmb)
    (hvec : be.vecSearch queryEmb (effLimit opts * 2) (effLevels opts) =
      .ok vhits) :
    Engine.Recall st be query opts =
        .ok (((dedupFirst vhits []).filterMap
          (scoreHit st
            ((be.ftsSearch query (effLimit opts * 2)).toOption.getD [])
            (effMinScore opts))).take (effLimit opts)) ∧
      List.Sublist
        (((dedupFirst vhits []).filterMap
          (scoreHit st
            ((be.ftsSearch query (effLimit opts * 2)).toOption.getD [])
            (effMinScore opts))).take (effLimit opts))
        ((dedupFirst vhits []).filterMap
          (scoreHit st
            ((be.ftsSearch query (effLimit opts * 2)).toOption.getD [])
            (effMinScore opts))) :=
  ⟨recall_ok_iff st be query opts queryEmb vhits hemb hvec,
    List.take_sublist _ _⟩

/-- Witness for C5 on the demo store: both hypotheses hold by
computation. -/
theorem recall_order_characterization_witness :
    Engine.Recall demoState demoBackend "q" defaultRecallOptions =
        .ok (((dedupFirst demoHits []).filterMap
          (scoreHit demoState
            ((demoBackend.ftsSearch "q"
              (effLimit defaultRecallOptions * 2)).toOption.getD [])
            (effMinScore defaultRecallOptions))).take
              (effLimit defaultRecallOptions)) ∧
      List.Sublist
        (((dedupFirst demoHits []).filterMap
          (scoreHit demoState
            ((demoBackend.ftsSearch "q"
              (effLimit defaultRecallOptions * 2)).toOption.getD [])
            (effMinScore defaultRecallOptions))).take
              (effLimit defaultRecallOptions))
        ((dedupFirst demoHits []).filterMap
          (scoreHit demoState
            ((demoBackend.ftsSearch "q"
              (effLimit defaultRecallOptions * 2)).toOption.getD [])
            (effMinScore defaultRecallOptions))) :=
  recall_order_characterization demoState demoBackend "q"
    defaultRecallOptions [1] demoHits rfl rfl

/-! ### C6 -/

/-- C6: `Recall` never returns more than the effective limit
(`opts.Limit`, defaulting to 5 when unset) of results, and every
returned result's score is at least the effective minimum score
(`opts.MinScore`, defaulting to 0.3 when unset). -/
theorem recall_limit_and_min_score (st : DBState) (be : RecallBackend)
    (query : String) (opts : RecallOptions) (res : List SearchResult)
    (h : Engine.Recall st be query opts = .ok res) :
    res.length ≤ effLimit opts ∧ ∀ r ∈ res, effMinScore opts ≤ r.score := by
  constructor
  · cases hemb : be.embed query with
    | error e =>
        unfold Engine.Recall at h
        rw [hemb] at h
        exact absurd h (by simp)
    | ok queryEmb =>
        cases hvec : be.vecSearch queryEmb (effLimit opts * 2)
            (effLevels opts) with
        | error e =>
            unfold Engine.Recall at h
            rw [hemb] at h
            dsimp only at h
            rw [hvec] at h
            exact absurd h (by simp)
        | ok vhits =>
            have hchar :=
              recall_ok_iff st be query opts queryEmb vhits hemb hvec
            have hres := Except.ok.inj (hchar.symm.trans h)
            subst hres
            exact List.length_take_le _ _
  · intro r hr
    rcases recall_mem_elim h hr with ⟨qe, vh, _, _, vr, _, hsome⟩
    exact not_lt.mp (scoreHit_spec hsome).2.2.1

/-- Witness for C6 on the demo store. -/
theorem recall_limit_and_min_score_witness :
    [(⟨demoMemA, 17 / 20, "hybrid"⟩ : SearchResult)].length ≤
        effLimit defaultRecallOptions ∧
      effMinScore defaultRecallOptions ≤
        (⟨demoMemA, 17 / 20, "hybrid"⟩ : SearchResult).score :=
  ⟨(recall_limit_and_min_score demoState demoBackend "q" defaultRecallOptions
      [⟨demoMemA, 17 / 20, "hybrid"⟩] demo_recall_eval).1,
    (recall_limit_and_min_score demoState demoBackend "q" defaultRecallOptions
      [⟨demoMemA, 17 / 20, "hybrid"⟩] demo_recall_eval).2
      ⟨demoMemA, 17 / 20, "hybrid"⟩ (List.mem_singleton.mpr rfl)⟩

/-! ### C4 -/

theorem hybridScore_clamp (d : ℚ) (hd : 0 ≤ d) (kw : Bool) :
    hybridScore d kw =
      7 / 10 * max 0 (min 1 (1 - d / 2)) + (if kw then 3 / 20 else 0) := by
  unfold hybridScore
  have h1 : min 1 (1 - d / 2) = 1 - d / 2 := min_eq_right (by linarith)
  rw [h1]
  by_cases hneg : 1 - d / 2 < 0
  · rw [if_pos hneg, max_eq_left (le_of_lt hneg)]
    ring
  · rw [if_neg hneg, max_eq_right (not_lt.mp hneg)]
    ring

/-- C4: every retained result's final score is exactly
`0.7 * clamp(1 - d/2, 0, 1)` plus a flat additive `0.15` boost when the
hit's id is also in the keyword hit set (given the nonnegative L2
distances the index returns); and the boost being additive, a
keyword-matching hit can exceed the `0.7` semantic-only ceiling. -/
theorem recall_score_formula (st : DBState) (be : RecallBackend)
    (query : String) (opts : RecallOptions) (queryEmb : List ℚ)
    (vhits : List VecHit) (res : List SearchResult)
    (hemb : be.embed query = .ok queryEmb)
    (hvec : be.vecSearch queryEmb (effLimit opts * 2) (effLevels opts) =
      .ok vhits)
    (hpos : ∀ hit ∈ vhits, 0 ≤ hit.distance)
    (hres : Engine.Recall st be query opts = .ok res) :
    (∀ r ∈ res, ∃ hit ∈ vhits, r.memory.id = hit.memoryId ∧
        r.score = 7 / 10 * max 0 (min 1 (1 - hit.distance / 2)) +
          (if ((be.ftsSearch query
              (effLimit opts * 2)).toOption.getD []).contains hit.memoryId
            then 3 / 20 else 0)) ∧
      (7 / 10 : ℚ) < hybridScore 0 true := by
  constructor
  · intro r hr
    rcases recall_mem_elim hres hr with ⟨qe, vh, hemb', hvec', vr, hvr, hsome⟩
    have hqe : qe = queryEmb := Except.ok.inj (hemb'.symm.trans hemb)
    subst hqe
    have hvh : vh = vhits := Except.ok.inj (hvec'.symm.trans hvec)
    subst hvh
    rcases scoreHit_spec hsome with ⟨hget, hscore, hth, hid⟩
    refine ⟨vr, hvr, hid, ?_⟩
    rw [hscore, hybridScore_clamp vr.distance (hpos vr hvr)]
  · norm_num [hybridScore]

/-- Witness for C4 on the demo store, instantiated at its single
result. -/
theorem recall_score_formula_witness :
    (∃ hit ∈ demoHits,
        (⟨demoMemA, 17 / 20, "hybrid"⟩ : SearchResult).memory.id =
            hit.memoryId ∧
          (⟨demoMemA, 17 / 20, "hybrid"⟩ : SearchResult).score =
            7 / 10 * max 0 (min 1 (1 - hit.distance / 2)) +
              (if ((demoBackend.ftsSearch "q"
                  (effLimit defaultRecallOptions * 2)).toOption.getD
                    []).contains hit.memoryId
                then 3 / 20 else 0)) ∧
      (7 / 10 : ℚ) < hybridScore 0 true :=
  ⟨(recall_score_formula demoState demoBackend "q" defaultRecallOptions [1]
      demoHits [⟨demoMemA, 17 / 20, "hybrid"⟩] rfl rfl
      (by norm_num [demoHits]) demo_recall_eval).1
      ⟨demoMemA, 17 / 20, "hybrid"⟩ (List.mem_singleton.mpr rfl),
    (recall_score_formula demoState demoBackend "q" defaultRecallOptions [1]
      demoHits [⟨demoMemA, 17 / 20, "hybrid"⟩] rfl rfl
      (by norm_num [demoHits]) demo_recall_eval).2⟩

/-! ### C7 -/

/-- C7: `Recall` is all-or-nothing on the fatal collaborators — a
query-embedding failure or a vector-search failure makes the whole call
error with no results — while a keyword-search failure is absorbed: the
call behaves exactly as if the keyword search had returned the empty
hit set (so the 0.15 boost is simply unavailable). -/
theorem recall_failure_modes (st : DBState) (be : RecallBackend)
    (query : String) (opts : RecallOptions) :
    (be.embed query = .error () →
        Engine.Recall st be query opts = .error ()) ∧
      (∀ queryEmb, be.embed query = .ok queryEmb →
        be.vecSearch queryEmb (effLimit opts * 2) (effLevels opts) =
          .error () →
        Engine.Recall st be query opts = .error ()) ∧
      (be.ftsSearch query (effLimit opts * 2) = .error () →
        Engine.Recall st be query opts =
          Engine.Recall st { be with ftsSearch := fun _ _ => .ok [] }
            query opts) := by
  refine ⟨fun h => ?_, fun queryEmb h1 h2 => ?_, fun h => ?_⟩
  · unfold Engine.Recall
    rw [h]
  · unfold Engine.Recall
    rw [h1]
    dsimp only
    rw [h2]
  · unfold Engine.Recall
    cases hemb : be.embed query with
    | error e => rfl
    | ok queryEmb =>
        dsimp only
        cases hvec : be.vecSearch queryEmb (effLimit opts * 2)
            (effLevels opts) with
        | error e => rfl
        | ok vhits =>
            dsimp only
            rw [h]
            rfl

def beEmbedFail : RecallBackend :=
  ⟨fun _ => .error (), fun _ _ _ => .ok [], fun _ _ => .ok []⟩

def beVecFail : RecallBackend :=
  ⟨fun _ => .ok [1], fun _ _ _ => .error (), fun _ _ => .ok []⟩

def beFtsFail : RecallBackend :=
  ⟨fun _ => .ok [1], fun _ _ _ => .ok demoHits, fun _ _ => .error ()⟩

/-- Witness for C7: all three failure modes at concrete backends. -/
theorem recall_failure_modes_witness :
    Engine.Recall demoState beEmbedFail "q" defaultRecallOptions =
        .error () ∧
      Engine.Recall demoState beVecFail "q" defaultRecallOptions =
        .error () ∧
      Engine.Recall demoState beFtsFail "q" defaultRecallOptions =
        Engine.Recall demoState
          { beFtsFail with ftsSearch := fun _ _ => .ok [] } "q"
          defaultRecallOptions :=
  ⟨(recall_failure_modes demoState beEmbedFail "q" defaultRecallOptions).1 rfl,
    (recall_failure_modes demoState beVecFail "q"
      defaultRecallOptions).2.1 [1] rfl rfl,
    (recall_failure_modes demoState beFtsFail "q"
      defaultRecallOptions).2.2 rfl⟩

/-! ### C2 -/

theorem mem_insertByDistance {x h : VecHit} :
    ∀ {l : List VecHit}, x ∈ insertByDistance h l ↔ x = h ∨ x ∈ l := by
  intro l
  induction l with
  | nil => simp [insertByDistance]
  | cons y ys ih =>
      unfold insertByDistance
      by_cases hc : h.distance < y.distance
      · rw [if_pos hc]
        simp [List.mem_cons]
      · rw [if_neg hc]
        simp only [List.mem_cons, ih]
        tauto

theorem mem_sortByDistance {x : VecHit} :
    ∀ {l : List VecHit}, x ∈ sortByDistance l ↔ x ∈ l := by
  intro l
  induction l with
  | nil => simp [sortByDistance]
  | cons y ys ih =>
      unfold sortByDistance
      rw [mem_insertByDistance]
      simp [ih]

theorem contains_true_iff {α : Type} [DecidableEq α] {l : List α} {a : α} :
    l.contains a = true ↔ a ∈ l := by
  simp [List.contains]

/-- Every hit of the (spec-modelled) trust-filtered vector search names
a stored memory whose trust is among the requested levels. -/
theorem vectorSearch_trust {st : DBState} {metric : List ℚ → List ℚ → ℚ}
    {queryEmb : List ℚ} {k : Nat} {trustLevels : List TrustLevel} :
    ∀ hit ∈ vectorSearch st metric queryEmb k trustLevels,
      ∃ m, getMemory st hit.memoryId = some m ∧
        trustLevels.contains m.trust = true := by
  intro hit hmem
  unfold vectorSearch at hmem
  have h1 := List.take_subset _ _ hmem
  rw [mem_sortByDistance] at h1
  rcases List.mem_map.mp h1 with ⟨e, he, heq⟩
  rcases List.mem_filter.mp he with ⟨_, hpred⟩
  cases hget : getMemory st e.1 with
  | none => rw [hget] at hpred; exact absurd hpred (by simp)
  | some m =>
      rw [hget] at hpred
      refine ⟨m, ?_, hpred⟩
      rw [← heq]
      exact hget

def scenarioMemV : Memory :=
  ⟨"v", "apply fix", .pattern, "", [], .validated, ⟨"", "", "", []⟩, 0, 0, 0⟩

def scenarioMemP : Memory :=
  ⟨"p", "apply fix", .error, "", [], .proposed, ⟨"", "", "", []⟩, 0, 0, 0⟩

/-- Two memories with equivalent content (identical embeddings), one
`proposed` and one `validated`, both present in the vector index. -/
def scenarioState : DBState :=
  ⟨[scenarioMemP, scenarioMemV], [], [], [("p", [1]), ("v", [1])]⟩

def scenarioBackend : RecallBackend :=
  ⟨fun _ => .ok [1],
    fun e k lv => .ok (vectorSearch scenarioState sqDist e k lv),
    fun _ _ => .ok []⟩

theorem scenario_vector_search :
    vectorSearch scenarioState sqDist [1] (effLimit defaultRecallOptions * 2)
      (effLevels defaultRecallOptions) = [⟨"v", 0⟩] := by
  unfold vectorSearch
  have hf : scenarioState.vecIndex.filter (fun e =>
      match getMemory scenarioState e.1 with
      | some m => (effLevels defaultRecallOptions).contains m.trust
      | none => false) = [("v", [1])] := by decide
  rw [hf]
  have hs : sqDist [1] [1] = 0 := by norm_num [sqDist]
  simp only [List.map_cons, List.map_nil, hs]
  rfl

theorem scenario_score_v :
    scoreHit scenarioState [] (3 / 10) ⟨"v", 0⟩ =
      some ⟨scenarioMemV, 7 / 10, "hybrid"⟩ := by
  have gv : getMemory scenarioState "v" = some scenarioMemV := by decide
  unfold scoreHit
  rw [gv]
  dsimp only
  have hs : hybridScore 0 (([] : List String).contains "v") = 7 / 10 := by
    norm_num [hybridScore]
  rw [hs]
  have hn : ¬ (7 / 10 : ℚ) < 3 / 10 := by norm_num
  rw [if_neg hn]

/-- C2: the vector-search candidate set is restricted to the requested
trust levels (defaulting to validated+proven); consequently every
`Recall` result's trust is among the effective levels, and on the
concrete scenario — a `proposed` and a `validated` memory with
equivalent content — the default-option recall returns exactly the
validated one and never the proposed one. -/
theorem recall_trust_restriction :
    (∀ (st : DBState) (metric : List ℚ → List ℚ → ℚ)
        (ef : String → Except Unit (List ℚ))
        (ff : String → Nat → Except Unit (List String))
        (query : String) (opts : RecallOptions) (res : List SearchResult),
      Engine.Recall st
          ⟨ef, fun e k lv => .ok (vectorSearch st metric e k lv), ff⟩
          query opts = .ok res →
      ∀ r ∈ res, r.memory.trust ∈ effLevels opts) ∧
      Engine.Recall scenarioState scenarioBackend "apply fix"
        defaultRecallOptions = .ok [⟨scenarioMemV, 7 / 10, "hybrid"⟩] := by
  constructor
  · intro st metric ef ff query opts res h r hr
    rcases recall_mem_elim h hr with ⟨qe, vh, hemb', hvec', vr, hvr, hsome⟩
    have hvh : vectorSearch st metric qe (effLimit opts * 2) (effLevels opts) =
        vh := Except.ok.inj hvec'
    rw [← hvh] at hvr
    rcases vectorSearch_trust vr hvr with ⟨m, hget, hcont⟩
    rcases scoreHit_spec hsome with ⟨hget', _, _, _⟩
    have hm : m = r.memory := Option.some.inj (hget.symm.trans hget')
    rw [hm] at hcont
    exact contains_true_iff.mp hcont
  · rw [recall_ok_iff scenarioState scenarioBackend "apply fix"
      defaultRecallOptions [1]
      (vectorSearch scenarioState sqDist [1] (effLimit defaultRecallOptions * 2)
        (effLevels defaultRecallOptions)) rfl rfl]
    rw [scenario_vector_search]
    have hd : dedupFirst [⟨"v", 0⟩] [] = [⟨"v", 0⟩] := by decide
    have hfts : (scenarioBackend.ftsSearch "apply fix"
        (effLimit defaultRecallOptions * 2)).toOption.getD [] =
        ([] : List String) := by decide
    have hms : effMinScore defaultRecallOptions = 3 / 10 := by
      norm_num [effMinScore, defaultRecallOptions]
    rw [hd, hfts, hms, List.filterMap_cons, scenario_score_v]
    rfl

/-- Witness for C2: the general restriction applied to the concrete
scenario run. -/
theorem recall_trust_restriction_witness :
    Engine.Recall scenarioState scenarioBackend "apply fix"
        defaultRecallOptions = .ok [⟨scenarioMemV, 7 / 10, "hybrid"⟩] ∧
      (⟨scenarioMemV, 7 / 10, "hybrid"⟩ : SearchResult).memory.trust ∈
        effLevels defaultRecallOptions :=
  ⟨recall_trust_restriction.2,
    recall_trust_restriction.1 scenarioState sqDist (fun _ => .ok [1])
      (fun _ _ => .ok []) "apply fix" defaultRecallOptions
      [⟨scenarioMemV, 7 / 10, "hybrid"⟩] recall_trust_restriction.2
      ⟨scenarioMemV, 7 / 10, "hybrid"⟩ (List.mem_singleton.mpr rfl)⟩

/-! ### Store lemmas -/

theorem applyEmbedOutcome_memories (st : DBState) (memoryId model : String)
    (now : Nat) (o : EmbedOutcome) :
    (applyEmbedOutcome st memoryId model now o).memories = st.memories := by
  cases o <;> rfl

theorem foldl_best_some_ne_none :
    ∀ (l : List Memory) (b : Memory),
      l.foldl
        (fun acc m =>
          match acc with
          | none => some m
          | some b => if b.updatedAt < m.updatedAt then some m else some b)
        (some b) ≠ none := by
  intro l
  induction l with
  | nil => intro b h; exact Option.noConfusion h
  | cons x xs ih =>
      intro b
      simp only [List.foldl_cons]
      by_cases hc : b.updatedAt < x.updatedAt
      · rw [if_pos hc]; exact ih x
      · rw [if_neg hc]; exact ih b

theorem bestByUpdated_eq_none_iff {l : List Memory} :
    bestByUpdated l = none ↔ l = [] := by
  cases l with
  | nil => simp [bestByUpdated]
  | cons x xs =>
      constructor
      · intro h
        exact absurd h (foldl_best_some_ne_none xs x)
      · intro h
        exact List.noConfusion h

theorem getMemoryByTopicKey_none_filter {st : DBState} {k : String}
    (h : getMemoryByTopicKey st k = none) :
    st.memories.filter (fun m => m.topicKey = k) = [] :=
  bestByUpdated_eq_none_iff.mp h

theorem store_none_case (st : DBState) (c : String) (opts : StoreOptions)
    (now : Nat) (freshId model : String) (embNow : Nat) (o : EmbedOutcome)
    (hif : (if opts.topicKey = "" then none
        else getMemoryByTopicKey st opts.topicKey) = none) :
    Engine.Store st c opts now freshId model embNow o =
      (freshMemory c opts now freshId,
        applyEmbedOutcome (saveMemory st (freshMemory c opts now freshId))
          freshId model embNow o) := by
  unfold Engine.Store
  rw [hif]
  rfl

theorem store_some_case (st : DBState) (c : String) (opts : StoreOptions)
    (now : Nat) (freshId model : String) (embNow : Nat) (o : EmbedOutcome)
    (ex : Memory)
    (hif : (if opts.topicKey = "" then none
        else getMemoryByTopicKey st opts.topicKey) = some ex) :
    Engine.Store st c opts now freshId model embNow o =
      (evolveMemory ex c opts now,
        applyEmbedOutcome (saveMemory st (evolveMemory ex c opts now))
          (evolveMemory ex c opts now).id model embNow o) := by
  unfold Engine.Store
  rw [hif]

theorem saveMemory_insert (st : DBState) (m : Memory)
    (h : st.memories.any (fun old => old.id = m.id) = false) :
    saveMemory st m = { st with memories := st.memories ++ [m] } := by
  unfold saveMemory
  rw [h]
  rfl

theorem saveMemory_update (st : DBState) (m : Memory)
    (h : st.memories.any (fun old => old.id = m.id) = true) :
    saveMemory st m =
      { st with
        memories := st.memories.map (fun old =>
          if old.id = m.id then
            { old with
              content := m.content, type := m.type, topicKey := m.topicKey,
              tags := m.tags, trust := m.trust, metadata := m.metadata,
              updatedAt := m.updatedAt, accessCnt := m.accessCnt }
          else old) } := by
  unfold saveMemory
  rw [h]
  rfl

/-! ### C1 -/

/-- C1: two successive stores against the same non-empty topic key,
the first creating the record (no record held that key before, and the
generated id is fresh): the surviving record keeps the first call's
`id` and `createdAt`, carries the second call's content and
`updatedAt`, its tags/type/trust change only where the second call
explicitly supplied the option, and exactly one record with that topic
key remains. -/
theorem store_twice_same_topic_key
    (st : DBState) (k c1 c2 : String) (o1 o2 : StoreOptions)
    (t1 t2 : Nat) (id1 id2 mdl1 mdl2 : String) (et1 et2 : Nat)
    (e1 e2 : EmbedOutcome) (r1 r2 : Memory × DBState)
    (hk : ¬ k = "") (ho1 : o1.topicKey = k) (ho2 : o2.topicKey = k)
    (hnone : getMemoryByTopicKey st k = none)
    (hfresh : ∀ m ∈ st.memories, ¬ m.id = id1)
    (hr1 : Engine.Store st c1 o1 t1 id1 mdl1 et1 e1 = r1)
    (hr2 : Engine.Store r1.2 c2 o2 t2 id2 mdl2 et2 e2 = r2) :
    r2.1.id = r1.1.id ∧ r2.1.createdAt = r1.1.createdAt ∧
      r1.1.id = id1 ∧ r1.1.createdAt = t1 ∧
      r2.1.content = c2 ∧ r2.1.updatedAt = t2 ∧
      r2.1.tags = o2.tags.getD r1.1.tags ∧
      r2.1.type = o2.type.getD r1.1.type ∧
      r2.1.trust = o2.trust.getD r1.1.trust ∧
      getMemory r2.2 id1 = some r2.1 ∧
      (r2.2.memories.filter (fun m => m.topicKey = k)).length = 1 := by
  subst hr1
  subst hr2
  have hif1 : (if o1.topicKey = "" then none
      else getMemoryByTopicKey st o1.topicKey) = none := by
    rw [ho1, if_neg hk]
    exact hnone
  have hfst1 := store_none_case st c1 o1 t1 id1 mdl1 et1 e1 hif1
  have hany1 : st.memories.any
      (fun old => old.id = (freshMemory c1 o1 t1 id1).id) = false := by
    rw [List.any_eq_false]
    intro x hx
    simpa using hfresh x hx
  have hmem1 : (Engine.Store st c1 o1 t1 id1 mdl1 et1 e1).2.memories =
      st.memories ++ [freshMemory c1 o1 t1 id1] := by
    rw [hfst1]
    dsimp only
    rw [applyEmbedOutcome_memories, saveMemory_insert st _ hany1]
  have hfilter0 : st.memories.filter (fun m => m.topicKey = k) = [] :=
    getMemoryByTopicKey_none_filter hnone
  have hfilter1 :
      List.filter (fun m => decide (m.topicKey = k))
        [freshMemory c1 o1 t1 id1] = [freshMemory c1 o1 t1 id1] := by
    simp [freshMemory, ho1]
  have hlookup2 : getMemoryByTopicKey
      (Engine.Store st c1 o1 t1 id1 mdl1 et1 e1).2 k =
      some (freshMemory c1 o1 t1 id1) := by
    unfold getMemoryByTopicKey
    rw [hmem1, List.filter_append, hfilter0, List.nil_append, hfilter1]
    rfl
  have hif2 : (if o2.topicKey = "" then none
      else getMemoryByTopicKey (Engine.Store st c1 o1 t1 id1 mdl1 et1 e1).2
        o2.topicKey) = some (freshMemory c1 o1 t1 id1) := by
    rw [ho2, if_neg hk]
    exact hlookup2
  have hfst2 := store_some_case (Engine.Store st c1 o1 t1 id1 mdl1 et1 e1).2
    c2 o2 t2 id2 mdl2 et2 e2 (freshMemory c1 o1 t1 id1) hif2
  have hany2 : (Engine.Store st c1 o1 t1 id1 mdl1 et1 e1).2.memories.any
      (fun old => old.id =
        (evolveMemory (freshMemory c1 o1 t1 id1) c2 o2 t2).id) = true := by
    rw [hmem1, List.any_eq_true]
    exact ⟨freshMemory c1 o1 t1 id1, by simp, by simp [evolveMemory]⟩
  have hmem2 : (Engine.Store (Engine.Store st c1 o1 t1 id1 mdl1 et1 e1).2
      c2 o2 t2 id2 mdl2 et2 e2).2.memories =
      st.memories ++ [evolveMemory (freshMemory c1 o1 t1 id1) c2 o2 t2] := by
    rw [hfst2]
    dsimp only
    rw [applyEmbedOutcome_memories, saveMemory_update _ _ hany2]
    dsimp only
    rw [hmem1, List.map_append]
    have hid2 : (evolveMemory (freshMemory c1 o1 t1 id1) c2 o2 t2).id = id1 :=
      rfl
    rw [hid2]
    congr 1
    · conv_rhs => rw [← List.map_id st.memories]
      apply List.map_congr_left
      intro x hx
      rw [if_neg (hfresh x hx)]
      rfl
    · simp only [List.map_cons, List.map_nil]
      have hcond : (freshMemory c1 o1 t1 id1).id = id1 := rfl
      rw [if_pos hcond]
      rfl
  refine ⟨?_, ?_, ?_, ?_, ?_, ?_, ?_, ?_, ?_, ?_, ?_⟩
  · rw [hfst2, hfst1]
    rfl
  · rw [hfst2, hfst1]
    rfl
  · rw [hfst1]
    rfl
  · rw [hfst1]
    rfl
  · rw [hfst2]
    rfl
  · rw [hfst2]
    rfl
  · rw [hfst2, hfst1]
    rfl
  · rw [hfst2, hfst1]
    rfl
  · rw [hfst2, hfst1]
    rfl
  · unfold getMemory
    rw [hmem2]
    have hall : ∀ x ∈ st.memories,
        (fun m => decide (m.id = id1)) x = false := by
      intro x hx
      simpa using hfresh x hx
    rw [find?_append_of_all_false hall, hfst2]
    simp [List.find?, evolveMemory, freshMemory]
  · rw [hmem2, List.filter_append, hfilter0, List.nil_append]
    simp [evolveMemory, freshMemory, ho1]

def c1OptsA : StoreOptions := ⟨"a/b", none, none, none, "", "", []⟩

def c1OptsB : StoreOptions := ⟨"a/b", none, some .pattern, none, "", "", []⟩

def c1Run1 : Memory × DBState :=
  Engine.Store emptyState "v1" c1OptsA 1 "x" "m" 1 .providerFail

def c1Run2 : Memory × DBState :=
  Engine.Store c1Run1.2 "v2" c1OptsB 2 "y" "m" 2 (.ok [1])

/-- Witness for C1: store "v1" then "v2" under topic key "a/b" into the
empty store, the second call supplying only `Type`. -/
theorem store_twice_same_topic_key_witness :
    c1Run2.1.id = c1Run1.1.id ∧ c1Run2.1.createdAt = c1Run1.1.createdAt ∧
      c1Run1.1.id = "x" ∧ c1Run1.1.createdAt = 1 ∧
      c1Run2.1.content = "v2" ∧ c1Run2.1.updatedAt = 2 ∧
      c1Run2.1.tags = c1OptsB.tags.getD c1Run1.1.tags ∧
      c1Run2.1.type = c1OptsB.type.getD c1Run1.1.type ∧
      c1Run2.1.trust = c1OptsB.trust.getD c1Run1.1.trust ∧
      getMemory c1Run2.2 "x" = some c1Run2.1 ∧
      (c1Run2.2.memories.filter (fun m => m.topicKey = "a/b")).length = 1 :=
  store_twice_same_topic_key emptyState "a/b" "v1" "v2" c1OptsA c1OptsB
    1 2 "x" "y" "m" "m" 1 2 .providerFail (.ok [1]) c1Run1 c1Run2
    (by decide) rfl rfl (by decide) (by decide) rfl rfl

/-! ### C8 -/

theorem store_memories_eq (st : DBState) (c : String) (opts : StoreOptions)
    (now : Nat) (freshId model : String) (embNow : Nat) (o : EmbedOutcome) :
    (Engine.Store st c opts now freshId model embNow o).2.memories =
      (saveMemory st
        (Engine.Store st c opts now freshId model embNow o).1).memories := by
  cases hex : (if opts.topicKey = "" then none
      else getMemoryByTopicKey st opts.topicKey) with
  | none =>
      rw [store_none_case st c opts now freshId model embNow o hex]
      dsimp only
      rw [applyEmbedOutcome_memories]
  | some ex =>
      rw [store_some_case st c opts now freshId model embNow o ex hex]
      dsimp only
      rw [applyEmbedOutcome_memories]

/-- C8: once the memory record is written, the best-effort embedding
step cannot change the outcome of `Store`: under any embedding outcome
(provider failure, embeddings-row write failure, index write failure,
or success) the returned memory is the same one the successful run
returns, and the memories table equals both the successful run's and
exactly what `saveMemory` wrote — the stored record is untouched by a
failed secondary step. -/
theorem store_secondary_failure_tolerated (st : DBState) (c : String)
    (opts : StoreOptions) (now : Nat) (freshId model : String) (embNow : Nat)
    (o : EmbedOutcome) (emb : List ℚ) :
    (Engine.Store st c opts now freshId model embNow o).1 =
        (Engine.Store st c opts now freshId model embNow (.ok emb)).1 ∧
      (Engine.Store st c opts now freshId model embNow o).2.memories =
        (Engine.Store st c opts now freshId model embNow (.ok emb)).2.memories ∧
      (Engine.Store st c opts now freshId model embNow o).2.memories =
        (saveMemory st
          (Engine.Store st c opts now freshId model embNow o).1).memories := by
  refine ⟨rfl, ?_, store_memories_eq st c opts now freshId model embNow o⟩
  rw [store_memories_eq, store_memories_eq]
  rfl

/-! ### C3 -/

def c3MemA : Memory :=
  ⟨"a", "content a", .general, "", [], .proposed, ⟨"", "", "", []⟩, 0, 0, 0⟩

def c3MemB : Memory :=
  ⟨"b", "content b", .general, "", [], .proposed, ⟨"", "", "", []⟩, 0, 0, 0⟩

def c3Relation : Relation := ⟨"r1", "a", "b", .solves, "", 0⟩

def c3State : DBState := ⟨[c3MemA, c3MemB], [c3Relation], [], []⟩

/-- C3 (code bug): after `DeleteMemory "a"` the memory is gone from
`GetMemory`, but because the connection never enables the SQLite
`foreign_keys` pragma the declared `ON DELETE CASCADE` does not run, so
the relation `a -[solves]-> b` survives, contradicting the claim that
no edge touching the id remains. -/
theorem delete_memory_leaves_dangling_relation :
    getMemory (deleteMemory c3State "a") "a" = none ∧
      (deleteMemory c3State "a").relations.filter
        (fun r => r.fromId = "a" || r.toId = "a") = [c3Relation] := by
  decide

end Cortex
